import Mathlib

/-!
Shallow embedding of the pysysp synthetic-photometry package
(`pysysp/pysysp.py` and `pysysp/extinction.py`).

Python floats are modelled as exact rationals (`ℚ`).  The two
transcendental primitives the code uses — the real power `x ** y` with a
non-integer exponent and `log10` — are abstracted into a `RealOps`
structure that every function needing them takes as a parameter; all the
remaining arithmetic is translated exactly.  Fallible code (Python
`raise`) becomes `Except String`.
-/

namespace Pysysp

/-- Abstract transcendental primitives: `rpow x y` models Python `x ** y`
for a non-integer exponent, `log10` models `np.log10`. -/
structure RealOps where
  rpow : ℚ → ℚ → ℚ
  log10 : ℚ → ℚ

/-- Speed of light in Angstrom/sec (`c = 2.99792458e18` in pysysp.py). -/
def c : ℚ := 2.99792458e18

/-- AB magnitude zero point (`abzero = -48.60`). -/
def abzero : ℚ := -48.60

/-- ST magnitude zero point (`stzero = -21.10`). -/
def stzero : ℚ := -21.10

/-- `np.max` on a nonempty array (junk value 0 on the empty list, where
numpy would raise). -/
def npMax : List ℚ → ℚ
  | [] => 0
  | x :: xs => xs.foldl max x

/-- `np.min` on a nonempty array (junk value 0 on the empty list). -/
def npMin : List ℚ → ℚ
  | [] => 0
  | x :: xs => xs.foldl min x

/-- `np.trapz(y, x=x)`: trapezoidal rule over a possibly non-uniform grid,
`Σ (x[i+1] - x[i]) * (y[i] + y[i+1]) / 2`. -/
def trapz : List ℚ → List ℚ → ℚ
  | y1 :: y2 :: ys, x1 :: x2 :: xs => (x2 - x1) * (y1 + y2) / 2 + trapz (y2 :: ys) (x2 :: xs)
  | _, _ => 0

/-- Fancy indexing `arr[r]` for an index array `r` (result of `np.where`). -/
def sel (l : List ℚ) (idx : List ℕ) : List ℚ :=
  idx.map (fun i => l.getD i 0)

/-- The overlap-error message raised by `StarSpectrum._waverange`. -/
def overlapMsg : String := "Bandpass and spectrum must completely overlap."

/-- `StarSpectrum._waverange(wb, ws)`: raises unless the bandpass range is
contained in the spectrum range, otherwise returns
`np.where(np.logical_and(ws <= wbmax, ws >= wbmin))` — the indices, in
increasing order, of the spectrum samples inside the bandpass range. -/
def waverange (wb ws : List ℚ) : Except String (List ℕ) :=
  let wbmax := npMax wb
  let wbmin := npMin wb
  let wsmax := npMax ws
  let wsmin := npMin ws
  if wbmin < wsmin ∨ wbmax > wsmax then
    .error overlapMsg
  else
    .ok ((List.range ws.length).filter
      (fun i => decide (ws.getD i 0 ≤ wbmax) && decide (ws.getD i 0 ≥ wbmin)))

/-- A star spectrum: parallel wavelength and flux arrays. -/
structure Spectrum where
  wavelength : List ℚ
  flux : List ℚ

/-- A bandpass: its sampled wavelength array together with its
interpolated response `resp` (the `BandPass.__call__` callable). -/
structure Band where
  wavelength : List ℚ
  resp : ℚ → ℚ

/-! ## Cardelli, Clayton and Mathis (1989) extinction law
(`pysysp/extinction.py`).  The per-region coefficient formulas are split
into named definitions; `cardelliOne` strings them together exactly as
the `elif` chain of the source does. -/

/-- Inverse wavelength in inverse micrometers: `X = 1. / (w * 1.e-4)`. -/
def Xof (w : ℚ) : ℚ := 1 / (w * 1e-4)

/-- Infrared region coefficient `a = 0.574 * X**1.61` (uses the real
power primitive). -/
def aIR (ops : RealOps) (X : ℚ) : ℚ := 0.574 * ops.rpow X 1.61

/-- Infrared region coefficient `b = -0.527 * X**1.61`. -/
def bIR (ops : RealOps) (X : ℚ) : ℚ := -0.527 * ops.rpow X 1.61

/-- Optical/NIR region coefficient `a`, a 7th-order polynomial in
`y = X - 1.82`. -/
def aOpt (X : ℚ) : ℚ :=
  let y := X - 1.82
  1 + 0.17699 * y - 0.50447 * y^2 - 0.02427 * y^3 + 0.72085 * y^4
    + 0.01979 * y^5 - 0.77530 * y^6 + 0.32999 * y^7

/-- Optical/NIR region coefficient `b`. -/
def bOpt (X : ℚ) : ℚ :=
  let y := X - 1.82
  1.41338 * y + 2.28305 * y^2 + 1.07233 * y^3 - 5.38434 * y^4
    - 0.62251 * y^5 + 5.30260 * y^6 - 2.09002 * y^7

/-- Far-UV curvature term `Fa`, active only for `X >= 5.9`. -/
def Fa (X : ℚ) : ℚ :=
  if X ≥ 5.9 then -0.04473 * (X - 5.9)^2 - 0.009779 * (X - 5.9)^3 else 0

/-- Far-UV curvature term `Fb`, active only for `X >= 5.9`. -/
def Fb (X : ℚ) : ℚ :=
  if X ≥ 5.9 then 0.2130 * (X - 5.9)^2 - 0.1207 * (X - 5.9)^3 else 0

/-- UV region coefficient `a = 1.752 - 0.316 X - 0.104/((X-4.67)^2 + 0.341) + Fa`. -/
def aUV (X : ℚ) : ℚ := 1.752 - 0.316 * X - 0.104 / ((X - 4.67)^2 + 0.341) + Fa X

/-- UV region coefficient `b = -3.090 + 1.825 X + 1.206/((X-4.62)^2 + 0.263) + Fb`. -/
def bUV (X : ℚ) : ℚ := -3.090 + 1.825 * X + 1.206 / ((X - 4.62)^2 + 0.263) + Fb X

/-- Far-UV region coefficient `a`, a cubic in `X - 8`. -/
def aFUV (X : ℚ) : ℚ :=
  -1.073 - 0.628 * (X - 8) + 0.137 * (X - 8)^2 - 0.070 * (X - 8)^3

/-- Far-UV region coefficient `b`, a cubic in `X - 8`. -/
def bFUV (X : ℚ) : ℚ :=
  13.670 + 4.257 * (X - 8) - 0.420 * (X - 8)^2 + 0.374 * (X - 8)^3

/-- Message of the long-wavelength domain error of the Cardelli law. -/
def longMsg : String := "Law not defined for wavelength larger than 33333.333333"

/-- Message of the short-wavelength domain error of the Cardelli law. -/
def shortMsg : String := "Law not defined for wavelength smaller than 1000.000000"

/-- One iteration of the loop body of `cardelli`: the `elif` chain over
`X = 1/(w * 1e-4)` producing `A * (a + b / Rv)` or a domain error. -/
def cardelliOne (ops : RealOps) (A Rv : ℚ) (w : ℚ) : Except String ℚ :=
  let X := Xof w
  if X < 0.3 then
    .error longMsg
  else if X ≥ 0.3 ∧ X < 1.1 then
    .ok (A * (aIR ops X + bIR ops X / Rv))
  else if X ≥ 1.1 ∧ X < 3.3 then
    .ok (A * (aOpt X + bOpt X / Rv))
  else if X ≥ 3.3 ∧ X < 8 then
    .ok (A * (aUV X + bUV X / Rv))
  else if X ≥ 8 ∧ X < 10 then
    .ok (A * (aFUV X + bFUV X / Rv))
  else
    .error shortMsg

/-- `cardelli(wavelength, A, Rv)`: the loop over the input wavelengths,
appending one value per wavelength and aborting at the first domain
error (a Python `raise` inside the loop discards the partial list). -/
def cardelli (ops : RealOps) (A Rv : ℚ) : List ℚ → Except String (List ℚ)
  | [] => .ok []
  | w :: ws =>
    match cardelliOne ops A Rv w with
    | .error e => .error e
    | .ok v =>
      match cardelli ops A Rv ws with
      | .error e => .error e
      | .ok vs => .ok (v :: vs)

/-- Modelled from the spec: the extinction-law registry `extlaws`
(imported by pysysp.py from pysysp/extinction.py, where its definition is
missing from the sources): a mapping from law name to law function,
holding only the Cardelli law.  The keyword parameters `A`, `Rv` are
passed through to the law. -/
def extlaws (ops : RealOps) (A Rv : ℚ) : List (String × (List ℚ → Except String (List ℚ))) :=
  [("cardelli", cardelli ops A Rv)]

/-- Message of the unknown-magnitude-system error of `apmag`. -/
def badMagMsg : String := "Magnitude system is not a valid choice, check input string"

/-- Message of the unknown-extinction-law error of `extinction`. -/
def badLawMsg : String := "Extinction law is not a valid choice, check input string"

/-- `StarSpectrum.apmag(band, mag, mzero)`.  The process-wide Vega
reference spectrum (loaded at import time from a FITS file) is passed as
the `vega` parameter. -/
def apmag (ops : RealOps) (vega : Spectrum) (s : Spectrum) (band : Band)
    (mag : String) (mzero : ℚ) : Except String ℚ :=
  match waverange band.wavelength s.wavelength with
  | .error e => .error e
  | .ok r =>
    let wr := sel s.wavelength r
    let fr := sel s.flux r
    if mag = "AB" then
      let f := trapz (List.zipWith (fun fi wi => fi * band.resp wi * wi) fr wr) wr /
        trapz (wr.map (fun wi => band.resp wi * c / wi)) wr
      .ok (-2.5 * ops.log10 f + abzero)
    else if mag = "ST" then
      let f := trapz (List.zipWith (fun fi wi => fi * band.resp wi * wi) fr wr) wr /
        trapz (wr.map (fun wi => band.resp wi * wi)) wr
      .ok (-2.5 * ops.log10 f + stzero)
    else if mag = "Vega" then
      match waverange band.wavelength vega.wavelength with
      | .error e => .error e
      | .ok vegar =>
        let vegawr := sel vega.wavelength vegar
        let vegafr := sel vega.flux vegar
        let f := trapz (List.zipWith (fun fi wi => fi * band.resp wi * wi) fr wr) wr
        let vegaf :=
          trapz (List.zipWith (fun fi wi => fi * band.resp wi * wi) vegafr vegawr) vegawr
        .ok (-2.5 * ops.log10 f + 2.5 * ops.log10 vegaf + mzero)
    else
      .error badMagMsg

/-- `StarSpectrum.extinction(band, law, A, Rv)`: overlap resolution, then
lookup of the law in the registry, then the extinction integral ratio. -/
def extinction (ops : RealOps) (s : Spectrum) (band : Band)
    (law : String) (A Rv : ℚ) : Except String ℚ :=
  match waverange band.wavelength s.wavelength with
  | .error e => .error e
  | .ok r =>
    let wr := sel s.wavelength r
    let fr := sel s.flux r
    match (extlaws ops A Rv).lookup law with
    | none => .error badLawMsg
    | some lawf =>
      match lawf wr with
      | .error e => .error e
      | .ok ext =>
        let f := trapz
            (List.zipWith (fun p e => p * ops.rpow 10 (-0.4 * e))
              (List.zipWith (fun fi wi => fi * band.resp wi * wi) fr wr) ext) wr /
          trapz (List.zipWith (fun fi wi => fi * band.resp wi * wi) fr wr) wr
        .ok (-2.5 * ops.log10 f)

/-- The smoothing kinds accepted by `BandPass.__init__`. -/
def smoothKinds : List String :=
  ["linear", "nearest", "zero", "slinear", "quadratic", "cubic"]

/-- Message of the unknown-smoothing error of `BandPass.__init__`. -/
def badSmoothMsg : String := "Unknown type of smoothing"

/-- Outcome of `BandPass.__init__` when it does not raise. -/
inductive InitOutcome where
  | loaded
  | notFoundWarning
  | noBand
  deriving DecidableEq

/-- `BandPass.__init__(band, smt)`.  The filter registry (built by an
import-time directory scan) is passed as the list `known`, and filesystem
lookup as the predicate `fileExists`.  A `None` or empty `band` is falsy
and skips loading entirely; an unknown band only warns. -/
def bandPassInit (known : List String) (fileExists : String → Bool)
    (band : Option String) (smt : String) : Except String InitOutcome :=
  match band with
  | none => .ok .noBand
  | some b =>
    if b = "" then .ok .noBand
    else if b ∈ known then
      if smt ∈ smoothKinds then .ok .loaded else .error badSmoothMsg
    else if fileExists b then
      if smt ∈ smoothKinds then .ok .loaded else .error badSmoothMsg
    else .ok .notFoundWarning

/-- Modelled from the spec: the interpolant built by `BandPass.smooth`
(scipy `interp1d(..., bounds_error=False, fill_value=0.)` is an external
collaborator whose code is not in the sources): a continuous function
over the sampled wavelength domain, zero-valued outside the domain — the
in-domain behaviour is abstracted as the parameter `inner`. -/
def interp1dModel (inner : ℚ → ℚ) (w : List ℚ) : ℚ → ℚ :=
  fun x => if npMin w ≤ x ∧ x ≤ npMax w then inner x else 0

/-! ## Spec-side definitions, written from the specification's words, used
to state the claims against the code-side definitions above. -/

/-- Spec-side integration grid: the subset of spectrum sample points
(wavelength paired with flux) whose wavelength lies within
`[wbmin, wbmax]` inclusive, in their original order. -/
def gridPairs (s : Spectrum) (wbmin wbmax : ℚ) : List (ℚ × ℚ) :=
  (s.wavelength.zip s.flux).filter (fun p => wbmin ≤ p.1 ∧ p.1 ≤ wbmax)

/-- Spec-side Cardelli coefficient `a` as a piecewise function of the
wavelength, defined on `0.3 ≤ X < 10`. -/
def aCCM (ops : RealOps) (w : ℚ) : ℚ :=
  let X := Xof w
  if X < 1.1 then aIR ops X
  else if X < 3.3 then aOpt X
  else if X < 8 then aUV X
  else aFUV X

/-- Spec-side Cardelli coefficient `b` as a piecewise function of the
wavelength, defined on `0.3 ≤ X < 10`. -/
def bCCM (ops : RealOps) (w : ℚ) : ℚ :=
  let X := Xof w
  if X < 1.1 then bIR ops X
  else if X < 3.3 then bOpt X
  else if X < 8 then bUV X
  else bFUV X

/-- A concrete instance of the transcendental primitives, used to
evaluate the embedding on concrete inputs. -/
def ops0 : RealOps := ⟨fun _ _ => 1, fun _ => 1⟩

/-- A concrete one-point spectrum, used to evaluate the embedding. -/
def sWit : Spectrum := ⟨[5000], [2]⟩

/-- A concrete one-point bandpass with flat unit response, used to
evaluate the embedding. -/
def bWit : Band := ⟨[5000], fun _ => 1⟩

/-! ## Helper lemmas -/

theorem zipWith_map_same {α β γ δ : Type} (f : β → γ → δ) (g : α → β) (h : α → γ) :
    ∀ l : List α, List.zipWith f (l.map g) (l.map h) = l.map (fun x => f (g x) (h x))
  | [] => rfl
  | x :: l => by
    simp only [List.map_cons, List.zipWith_cons_cons, zipWith_map_same f g h l]

theorem sel_range_filter_self (p : ℚ → Bool) :
    ∀ ws : List ℚ,
      sel ws ((List.range ws.length).filter (fun i => p (ws.getD i 0))) = ws.filter p := by
  intro ws
  induction ws with
  | nil => simp [sel]
  | cons x ws ih =>
    have hcomp : ((fun i => p ((x :: ws).getD i 0)) ∘ Nat.succ) = fun i => p (ws.getD i 0) := by
      funext i
      simp
    simp only [List.length_cons, List.range_succ_eq_map, List.filter_cons, List.filter_map,
      hcomp, List.getD_cons_zero, List.filter_cons]
    have hsel : ((fun i => (x :: ws).getD i 0) ∘ Nat.succ) = fun i => ws.getD i 0 := by
      funext i
      simp [Function.comp, List.getD_cons_succ]
    simp only [sel] at ih
    by_cases hp : p x
    · simp only [hp, eq_self_iff_true, if_true, sel, List.map_cons, List.map_map,
        List.getD_cons_zero, hsel]
      exact congrArg (List.cons x) ih
    · simp only [hp, Bool.false_eq_true, if_false, sel, List.map_map, hsel]
      exact ih

theorem sel_zip_filter_snd (p : ℚ → Bool) :
    ∀ ws fs : List ℚ, ws.length = fs.length →
      sel fs ((List.range ws.length).filter (fun i => p (ws.getD i 0)))
        = ((ws.zip fs).filter (fun q => p q.1)).map Prod.snd := by
  intro ws
  induction ws with
  | nil =>
    intro fs h
    simp [sel]
  | cons x ws ih =>
    intro fs h
    cases fs with
    | nil => simp at h
    | cons y fs =>
      have h' : ws.length = fs.length := by simpa using h
      have key := ih fs h'
      have hcomp : ((fun i => p ((x :: ws).getD i 0)) ∘ Nat.succ) = fun i => p (ws.getD i 0) := by
        funext i
        simp
      simp only [List.length_cons, List.range_succ_eq_map, List.filter_cons, List.filter_map,
        hcomp, List.zip_cons_cons, List.getD_cons_zero]
      have hsel : ((fun i => (y :: fs).getD i 0) ∘ Nat.succ) = fun i => fs.getD i 0 := by
        funext i
        simp [Function.comp, List.getD_cons_succ]
      simp only [sel] at key
      by_cases hp : p x
      · simp only [hp, eq_self_iff_true, if_true, sel, List.map_cons, List.map_map,
          List.getD_cons_zero, hsel]
        exact congrArg (List.cons y) key
      · simp only [hp, Bool.false_eq_true, if_false, sel, List.map_map, hsel]
        exact key

theorem map_fst_zip_filter (p : ℚ → Bool) :
    ∀ ws fs : List ℚ, ws.length = fs.length →
      ((ws.zip fs).filter (fun q => p q.1)).map Prod.fst = ws.filter p := by
  intro ws
  induction ws with
  | nil =>
    intro fs h
    simp
  | cons x ws ih =>
    intro fs h
    cases fs with
    | nil => simp at h
    | cons y fs =>
      have h' : ws.length = fs.length := by simpa using h
      have key := ih fs h'
      simp only [List.zip_cons_cons, List.filter_cons]
      by_cases hp : p x
      · simp only [hp, if_pos, List.map_cons]
        exact congrArg (List.cons x) key
      · simp only [hp, Bool.false_eq_true, if_neg]
        exact key

theorem waverange_ok (wb ws : List ℚ)
    (h : npMin ws ≤ npMin wb ∧ npMax wb ≤ npMax ws) :
    waverange wb ws =
      .ok ((List.range ws.length).filter
        (fun i => decide (ws.getD i 0 ≤ npMax wb) && decide (ws.getD i 0 ≥ npMin wb))) := by
  simp only [waverange]
  rw [if_neg]
  push_neg
  exact ⟨h.1, h.2⟩

theorem waverange_error_iff (wb ws : List ℚ) :
    waverange wb ws = .error overlapMsg ↔ (npMin wb < npMin ws ∨ npMax wb > npMax ws) := by
  simp only [waverange]
  by_cases h : npMin wb < npMin ws ∨ npMax wb > npMax ws
  · simp [h]
  · simp [h]

theorem cardelliOne_ok (ops : RealOps) (A Rv w : ℚ) (h3 : 0.3 ≤ Xof w) (h10 : Xof w < 10) :
    cardelliOne ops A Rv w = .ok (A * (aCCM ops w + bCCM ops w / Rv)) := by
  simp only [cardelliOne, aCCM, bCCM]
  by_cases c1 : Xof w < 1.1
  · rw [if_neg (not_lt.mpr h3), if_pos (⟨h3, c1⟩ : Xof w ≥ 0.3 ∧ Xof w < 1.1),
      if_pos c1, if_pos c1]
  · by_cases c2 : Xof w < 3.3
    · rw [if_neg (not_lt.mpr h3), if_neg (fun hc => c1 hc.2),
        if_pos (⟨not_lt.mp c1, c2⟩ : Xof w ≥ 1.1 ∧ Xof w < 3.3),
        if_neg c1, if_pos c2, if_neg c1, if_pos c2]
    · by_cases c3 : Xof w < 8
      · rw [if_neg (not_lt.mpr h3), if_neg (fun hc => c1 hc.2), if_neg (fun hc => c2 hc.2),
          if_pos (⟨not_lt.mp c2, c3⟩ : Xof w ≥ 3.3 ∧ Xof w < 8),
          if_neg c1, if_neg c2, if_pos c3, if_neg c1, if_neg c2, if_pos c3]
      · rw [if_neg (not_lt.mpr h3), if_neg (fun hc => c1 hc.2), if_neg (fun hc => c2 hc.2),
          if_neg (fun hc => c3 hc.2),
          if_pos (⟨not_lt.mp c3, h10⟩ : Xof w ≥ 8 ∧ Xof w < 10),
          if_neg c1, if_neg c2, if_neg c3, if_neg c1, if_neg c2, if_neg c3]

theorem cardelliOne_isError (ops : RealOps) (A Rv w : ℚ)
    (h : Xof w < 0.3 ∨ 10 ≤ Xof w) :
    ∃ e, cardelliOne ops A Rv w = .error e := by
  simp only [cardelliOne]
  rcases h with h | h
  · exact ⟨longMsg, by rw [if_pos h]⟩
  · refine ⟨shortMsg, ?_⟩
    rw [if_neg (not_lt.mpr (by linarith)),
      if_neg (fun hc => absurd hc.2 (not_lt.mpr (by linarith))),
      if_neg (fun hc => absurd hc.2 (not_lt.mpr (by linarith))),
      if_neg (fun hc => absurd hc.2 (not_lt.mpr (by linarith))),
      if_neg (fun hc => absurd hc.2 (not_lt.mpr h))]

theorem cardelli_all_ok (ops : RealOps) (A Rv : ℚ) :
    ∀ ws : List ℚ, (∀ w ∈ ws, 0.3 ≤ Xof w ∧ Xof w < 10) →
      cardelli ops A Rv ws = .ok (ws.map (fun w => A * (aCCM ops w + bCCM ops w / Rv))) := by
  intro ws
  induction ws with
  | nil => intro _; rfl
  | cons w ws ih =>
    intro hall
    have hw := hall w (List.mem_cons_self w ws)
    have hrest := fun x hx => hall x (List.mem_cons_of_mem w hx)
    simp only [cardelli, cardelliOne_ok ops A Rv w hw.1 hw.2, ih hrest, List.map_cons]

theorem cardelli_some_bad (ops : RealOps) (A Rv : ℚ) :
    ∀ ws : List ℚ, (∃ w ∈ ws, Xof w < 0.3 ∨ 10 ≤ Xof w) →
      ∃ e, cardelli ops A Rv ws = .error e := by
  intro ws
  induction ws with
  | nil => rintro ⟨w, hw, _⟩; cases hw
  | cons w ws ih =>
    rintro ⟨x, hx, hxbad⟩
    rcases List.mem_cons.mp hx with rfl | hx'
    · obtain ⟨e, he⟩ := cardelliOne_isError ops A Rv x hxbad
      exact ⟨e, by simp only [cardelli, he]⟩
    · by_cases hw : 0.3 ≤ Xof w ∧ Xof w < 10
      · obtain ⟨e, he⟩ := ih ⟨x, hx', hxbad⟩
        exact ⟨e, by simp only [cardelli, cardelliOne_ok ops A Rv w hw.1 hw.2, he]⟩
      · have hbad : Xof w < 0.3 ∨ 10 ≤ Xof w := by
          rcases not_and_or.mp hw with h | h
          · exact Or.inl (not_le.mp h)
          · exact Or.inr (not_lt.mp h)
        obtain ⟨e, he⟩ := cardelliOne_isError ops A Rv w hbad
        exact ⟨e, by simp only [cardelli, he]⟩

theorem cardelliOne_error_msg (ops : RealOps) (A Rv w : ℚ) (e : String)
    (h : cardelliOne ops A Rv w = .error e) : e = longMsg ∨ e = shortMsg := by
  simp only [cardelliOne] at h
  split_ifs at h <;>
    first
      | exact Except.noConfusion h
      | · injection h with h2
          first
            | exact Or.inl h2.symm
            | exact Or.inr h2.symm

theorem cardelli_error_msg (ops : RealOps) (A Rv : ℚ) :
    ∀ (ws : List ℚ) (e : String), cardelli ops A Rv ws = .error e →
      e = longMsg ∨ e = shortMsg := by
  intro ws
  induction ws with
  | nil => intro e h; exact Except.noConfusion h
  | cons w ws ih =>
    intro e h
    simp only [cardelli] at h
    cases hone : cardelliOne ops A Rv w with
    | error e1 =>
      simp only [hone] at h
      injection h with h2
      subst h2
      exact cardelliOne_error_msg ops A Rv w e1 hone
    | ok v =>
      simp only [hone] at h
      cases hrest : cardelli ops A Rv ws with
      | error e2 =>
        simp only [hrest] at h
        injection h with h2
        subst h2
        exact ih e2 hrest
      | ok vs =>
        simp only [hrest] at h
        exact Except.noConfusion h

theorem not_contained_iff (wb ws : List ℚ) :
    (npMin wb < npMin ws ∨ npMax wb > npMax ws) ↔
      ¬(npMin ws ≤ npMin wb ∧ npMax wb ≤ npMax ws) := by
  rw [not_and_or, not_le, not_le]

theorem gridPred_congr (lo hi : ℚ) (l : List ℚ) :
    l.filter (fun x => decide (x ≤ hi) && decide (x ≥ lo))
      = l.filter (fun w => lo ≤ w ∧ w ≤ hi) := by
  refine List.filter_congr ?_
  intro x _
  by_cases h1 : x ≤ hi <;> by_cases h2 : lo ≤ x <;> simp [h1, h2]

theorem sel_grid_fst (s : Spectrum) (lo hi : ℚ) (hlen : s.wavelength.length = s.flux.length) :
    sel s.wavelength ((List.range s.wavelength.length).filter
      (fun i => decide (s.wavelength.getD i 0 ≤ hi) && decide (s.wavelength.getD i 0 ≥ lo))) =
      (gridPairs s lo hi).map Prod.fst := by
  have e1 := sel_range_filter_self
    (fun x => decide (x ≤ hi) && decide (x ≥ lo)) s.wavelength
  have e2 := map_fst_zip_filter
    (fun x => decide (x ≤ hi) && decide (x ≥ lo)) s.wavelength s.flux hlen
  refine e1.trans (e2.symm.trans ?_)
  refine congrArg (List.map Prod.fst) ?_
  unfold gridPairs
  refine List.filter_congr ?_
  intro q _
  by_cases h1 : q.1 ≤ hi <;> by_cases h2 : lo ≤ q.1 <;> simp [h1, h2]

theorem sel_grid_snd (s : Spectrum) (lo hi : ℚ) (hlen : s.wavelength.length = s.flux.length) :
    sel s.flux ((List.range s.wavelength.length).filter
      (fun i => decide (s.wavelength.getD i 0 ≤ hi) && decide (s.wavelength.getD i 0 ≥ lo))) =
      (gridPairs s lo hi).map Prod.snd := by
  have e1 := sel_zip_filter_snd
    (fun x => decide (x ≤ hi) && decide (x ≥ lo)) s.wavelength s.flux hlen
  refine e1.trans ?_
  refine congrArg (List.map Prod.snd) ?_
  unfold gridPairs
  refine List.filter_congr ?_
  intro q _
  by_cases h1 : q.1 ≤ hi <;> by_cases h2 : lo ≤ q.1 <;> simp [h1, h2]

theorem grid_fst_mem (s : Spectrum) (lo hi : ℚ) :
    ∀ w ∈ (gridPairs s lo hi).map Prod.fst, w ∈ s.wavelength := by
  intro w hw
  simp only [gridPairs, List.mem_map] at hw
  obtain ⟨q, hq, rfl⟩ := hw
  obtain ⟨a, b⟩ := q
  exact (List.of_mem_zip (List.mem_filter.mp hq).1).1

theorem extinction_cardelli_not_overlap (ops : RealOps) (s : Spectrum) (band : Band)
    (A Rv : ℚ)
    (h : npMin s.wavelength ≤ npMin band.wavelength ∧
      npMax band.wavelength ≤ npMax s.wavelength) :
    extinction ops s band "cardelli" A Rv ≠ .error overlapMsg := by
  have hok := waverange_ok band.wavelength s.wavelength h
  rcases hc : cardelli ops A Rv (sel s.wavelength ((List.range s.wavelength.length).filter
      (fun i => decide (s.wavelength.getD i 0 ≤ npMax band.wavelength) &&
        decide (s.wavelength.getD i 0 ≥ npMin band.wavelength)))) with e1 | ext
  · intro hcontra
    simp only [extinction, hok, extlaws, List.lookup, beq_self_eq_true, hc] at hcontra
    injection hcontra with h2
    rcases cardelli_error_msg ops A Rv _ e1 hc with rfl | rfl
    · exact absurd h2 (by simp [longMsg, overlapMsg])
    · exact absurd h2 (by simp [shortMsg, overlapMsg])
  · intro hcontra
    simp only [extinction, hok, extlaws, List.lookup, beq_self_eq_true, hc] at hcontra
    exact Except.noConfusion hcontra

/-! ## Claims -/

/-- C6 counterexample: at the region boundary X = 3.3 with A = 1 and
Rv = 3.1, the optical-region formula and the UV-region formula differ by
about 1.8e-4 in absolute value, exceeding the claimed 1e-6 tolerance. -/
theorem cardelli_boundary_counterexample :
    ¬ |1 * (aOpt 3.3 + bOpt 3.3 / (31/10)) - 1 * (aUV 3.3 + bUV 3.3 / (31/10))| ≤ 1e-6 := by
  have heq : 1 * (aOpt 3.3 + bOpt 3.3 / (31/10)) - 1 * (aUV 3.3 + bUV 3.3 / (31/10))
      = -94894337566564928483/525974565353393554687500 := by
    norm_num [aOpt, bOpt, aUV, bUV, Fa, Fb]
  rw [not_le, heq, abs_of_neg (by norm_num)]
  norm_num

/-- C6 (amended): with A = 1 and Rv = 3.1 the Cardelli law is continuous
at the region boundaries X = 1.1 and 3.3 only within a tolerance of 1e-3
(not 1e-6), it is exactly continuous at X = 5.9 (the far-UV correction
terms vanish there), and it is not continuous at X = 8.0, where the
adjacent formulas differ by about 0.721.  The bound at 1.1 holds for any
value of the power primitive inside a correct bracket of the real
1.1^1.61. -/
theorem cardelli_boundary_continuity (ops : RealOps)
    (hrpow : 1.1656 ≤ ops.rpow 1.1 1.61 ∧ ops.rpow 1.1 1.61 ≤ 1.1661) :
    |1 * (aIR ops 1.1 + bIR ops 1.1 / (31/10)) -
        1 * (aOpt 1.1 + bOpt 1.1 / (31/10))| ≤ 1e-3 ∧
    |1 * (aOpt 3.3 + bOpt 3.3 / (31/10)) - 1 * (aUV 3.3 + bUV 3.3 / (31/10))| ≤ 1e-3 ∧
    (aUV 5.9 = 1.752 - 0.316 * 5.9 - 0.104 / ((5.9 - 4.67)^2 + 0.341) ∧
      bUV 5.9 = -3.090 + 1.825 * 5.9 + 1.206 / ((5.9 - 4.62)^2 + 0.263)) ∧
    (7/10 ≤ |1 * (aUV 8 + bUV 8 / (31/10)) - 1 * (aFUV 8 + bFUV 8 / (31/10))| ∧
      |1 * (aUV 8 + bUV 8 / (31/10)) - 1 * (aFUV 8 + bFUV 8 / (31/10))| ≤ 3/4) := by
  obtain ⟨hlo, hhi⟩ := hrpow
  refine ⟨?_, ?_, ⟨?_, ?_⟩, ?_⟩
  · have hC : aOpt 1.1 + bOpt 1.1 / (31/10)
        = 4458774339576941/9460449218750000 := by
      norm_num [aOpt, bOpt]
    simp only [aIR, bIR, hC, one_mul]
    rw [abs_le]
    constructor <;> linarith
  · have heq : 1 * (aOpt 3.3 + bOpt 3.3 / (31/10)) - 1 * (aUV 3.3 + bUV 3.3 / (31/10))
        = -94894337566564928483/525974565353393554687500 := by
      norm_num [aOpt, bOpt, aUV, bUV, Fa, Fb]
    rw [heq, abs_of_neg (by norm_num)]
    norm_num
  · norm_num [aUV, Fa]
  · norm_num [bUV, Fb]
  · have heq : 1 * (aUV 8 + bUV 8 / (31/10)) - 1 * (aFUV 8 + bFUV 8 / (31/10))
        = -16587213070661899923/23006445617000000000 := by
      norm_num [aUV, bUV, aFUV, bFUV, Fa, Fb]
    rw [heq, abs_of_neg (by norm_num)]
    constructor <;> norm_num

/-- Witness for the amended C6 at a concrete instance of the power
primitive. -/
theorem cardelli_boundary_continuity_witness :
    ((1.1656 : ℚ) ≤ 1.1658 ∧ (1.1658 : ℚ) ≤ 1.1661) ∧
      |1 * (aIR ⟨fun _ _ => 1.1658, fun _ => 1⟩ 1.1 +
          bIR ⟨fun _ _ => 1.1658, fun _ => 1⟩ 1.1 / (31/10)) -
        1 * (aOpt 1.1 + bOpt 1.1 / (31/10))| ≤ 1e-3 := by
  have hb : (1.1656 : ℚ) ≤ 1.1658 ∧ (1.1658 : ℚ) ≤ 1.1661 := by norm_num
  exact ⟨hb, (cardelli_boundary_continuity ⟨fun _ _ => 1.1658, fun _ => 1⟩ hb).1⟩

/-- C10: for the AB and ST magnitude systems, the result of `apmag` does
not depend on the `mzero` argument; only the Vega branch reads it. -/
theorem apmag_mzero_independent_AB_ST (ops : RealOps) (vega s : Spectrum) (band : Band)
    (m1 m2 : ℚ) :
    apmag ops vega s band "AB" m1 = apmag ops vega s band "AB" m2 ∧
    apmag ops vega s band "ST" m1 = apmag ops vega s band "ST" m2 := by
  constructor <;>
    · unfold apmag
      cases waverange band.wavelength s.wavelength <;> simp

/-- C9 counterexample: constructing a BandPass with an unknown band
argument and a smoothing kind outside the enumerated set does not raise
the configuration error — it only warns that the filter was not found. -/
theorem bandPassInit_unknown_band_no_error :
    bandPassInit [] (fun _ => false) (some "nofilter") "bogus" = .ok .notFoundWarning := by
  simp [bandPassInit]

/-- C9 (amended): constructing a BandPass with a smoothing kind outside
the fixed enumerated set fails with the configuration error for every
band argument that names a known filter or an existing file (for an
unknown band the constructor only warns and never reaches the check). -/
theorem bandPassInit_bad_smoothing (known : List String) (fileExists : String → Bool)
    (b smt : String) (hb : b ≠ "") (hfound : b ∈ known ∨ fileExists b = true)
    (hsmt : smt ∉ smoothKinds) :
    bandPassInit known fileExists (some b) smt = .error badSmoothMsg := by
  simp only [bandPassInit]
  rw [if_neg hb]
  rcases hfound with hf | hf
  · rw [if_pos hf, if_neg hsmt]
  · by_cases hk : b ∈ known
    · rw [if_pos hk, if_neg hsmt]
    · rw [if_neg hk, if_pos hf, if_neg hsmt]

/-- Witness for the amended C9 at a concrete input. -/
theorem bandPassInit_bad_smoothing_witness :
    ("V" : String) ≠ "" ∧ ("V" ∈ ["V"] ∨ (fun _ : String => false) "V" = true) ∧
      "bogus" ∉ smoothKinds ∧
      bandPassInit ["V"] (fun _ => false) (some "V") "bogus" = .error badSmoothMsg := by
  refine ⟨by simp, Or.inl (by simp), by simp [smoothKinds], ?_⟩
  exact bandPassInit_bad_smoothing ["V"] (fun _ => false) "V" "bogus" (by simp)
    (Or.inl (by simp)) (by simp [smoothKinds])

/-- C8: once the overlap check passes, an unknown magnitude system makes
`apmag` raise ValueError and a law name absent from the registry makes
`extinction` raise ValueError; neither returns a result. -/
theorem apmag_extinction_invalid_choice (ops : RealOps) (vega s : Spectrum) (band : Band)
    (mzero : ℚ) (mag law : String) (A Rv : ℚ)
    (hov : npMin s.wavelength ≤ npMin band.wavelength ∧
      npMax band.wavelength ≤ npMax s.wavelength)
    (hmag : mag ≠ "AB" ∧ mag ≠ "ST" ∧ mag ≠ "Vega")
    (hlaw : law ∉ (extlaws ops A Rv).map Prod.fst) :
    apmag ops vega s band mag mzero = .error badMagMsg ∧
    extinction ops s band law A Rv = .error badLawMsg := by
  have hwr := waverange_ok band.wavelength s.wavelength hov
  have hlaw' : law ≠ "cardelli" := by
    simpa [extlaws] using hlaw
  constructor
  · simp only [apmag, hwr]
    rw [if_neg hmag.1, if_neg hmag.2.1, if_neg hmag.2.2]
  · simp only [extinction, hwr, extlaws, List.lookup]
    simp only [beq_eq_false_iff_ne.mpr hlaw']

/-- Witness for C8 at a concrete input. -/
theorem apmag_extinction_invalid_choice_witness :
    (npMin [(5000 : ℚ)] ≤ npMin [(5000 : ℚ)] ∧ npMax [(5000 : ℚ)] ≤ npMax [(5000 : ℚ)]) ∧
    apmag ops0 ⟨[5000], [1]⟩ ⟨[5000], [1]⟩ ⟨[5000], fun _ => 1⟩ "XYZ" 0 = .error badMagMsg ∧
    extinction ops0 ⟨[5000], [1]⟩ ⟨[5000], fun _ => 1⟩ "foo" 1 (31/10) = .error badLawMsg := by
  have h := apmag_extinction_invalid_choice ops0 ⟨[5000], [1]⟩ ⟨[5000], [1]⟩
    ⟨[5000], fun _ => 1⟩ 0 "XYZ" "foo" 1 (31/10)
    ⟨le_refl _, le_refl _⟩ ⟨by simp, by simp, by simp⟩ (by simp [extlaws])
  exact ⟨⟨le_refl _, le_refl _⟩, h.1, h.2⟩

/-- C7: the bandpass interpolant evaluates to exactly 0 at every
wavelength strictly outside the sampled domain. -/
theorem interp1dModel_outside_zero (inner : ℚ → ℚ) (w : List ℚ) (x : ℚ)
    (hx : x < npMin w ∨ npMax w < x) :
    interp1dModel inner w x = 0 := by
  unfold interp1dModel
  rw [if_neg]
  rintro ⟨h1, h2⟩
  rcases hx with h | h
  · exact absurd h1 (not_le.mpr h)
  · exact absurd h2 (not_le.mpr h)

/-- C1: for non-empty wavelength arrays, apmag (in the AB system) and
extinction (with the cardelli law) raise the overlap error exactly when
the bandpass wavelength range is not contained in the spectrum wavelength
range; when the check passes, the integration grid is exactly the subset
of the spectrum sample points between the bandpass bounds, both bounds
inclusive, in their original order, with no resampling. -/
theorem overlap_check_spec (ops : RealOps) (vega s : Spectrum) (band : Band)
    (mzero A Rv : ℚ) (hb : band.wavelength ≠ []) (hs : s.wavelength ≠ []) :
    (apmag ops vega s band "AB" mzero = .error overlapMsg ↔
      npMin band.wavelength < npMin s.wavelength ∨
        npMax band.wavelength > npMax s.wavelength) ∧
    (extinction ops s band "cardelli" A Rv = .error overlapMsg ↔
      npMin band.wavelength < npMin s.wavelength ∨
        npMax band.wavelength > npMax s.wavelength) ∧
    (∀ r, waverange band.wavelength s.wavelength = .ok r →
      sel s.wavelength r =
        s.wavelength.filter
          (fun w => npMin band.wavelength ≤ w ∧ w ≤ npMax band.wavelength)) := by
  refine ⟨?_, ?_, ?_⟩
  · by_cases h : npMin band.wavelength < npMin s.wavelength ∨
        npMax band.wavelength > npMax s.wavelength
    · have herr := (waverange_error_iff band.wavelength s.wavelength).mpr h
      simp only [apmag, herr]
      simp [h]
    · have hcont : npMin s.wavelength ≤ npMin band.wavelength ∧
          npMax band.wavelength ≤ npMax s.wavelength := by
        push_neg at h
        exact h
      have hok := waverange_ok band.wavelength s.wavelength hcont
      simp only [apmag, hok]
      simp [h]
  · by_cases h : npMin band.wavelength < npMin s.wavelength ∨
        npMax band.wavelength > npMax s.wavelength
    · have herr := (waverange_error_iff band.wavelength s.wavelength).mpr h
      simp only [extinction, herr]
      simp [h]
    · have hcont : npMin s.wavelength ≤ npMin band.wavelength ∧
          npMax band.wavelength ≤ npMax s.wavelength := by
        push_neg at h
        exact h
      exact iff_of_false (extinction_cardelli_not_overlap ops s band A Rv hcont) h
  · intro r hr
    simp only [waverange] at hr
    split_ifs at hr with hcond
    all_goals
      first
        | exact Except.noConfusion hr
        | · injection hr with h2
            subst h2
            have e1 := sel_range_filter_self
              (fun x => decide (x ≤ npMax band.wavelength) &&
                decide (x ≥ npMin band.wavelength))
              s.wavelength
            exact e1.trans
              (gridPred_congr (npMin band.wavelength) (npMax band.wavelength) s.wavelength)

/-- Witness for C1 at a concrete input. -/
theorem overlap_check_spec_witness :
    (bWit.wavelength ≠ [] ∧ sWit.wavelength ≠ []) ∧
      (apmag ops0 sWit sWit bWit "AB" 0 = .error overlapMsg ↔
        npMin bWit.wavelength < npMin sWit.wavelength ∨
          npMax bWit.wavelength > npMax sWit.wavelength) := by
  have hb : bWit.wavelength ≠ [] := by simp [bWit]
  have hs : sWit.wavelength ≠ [] := by simp [sWit]
  exact ⟨⟨hb, hs⟩, (overlap_check_spec ops0 sWit sWit bWit 0 1 (31/10) hb hs).1⟩

/-- C2: for a spectrum and bandpass passing the overlap check, apmag in
the AB system returns `-2.5*log10(T(f*R(w)*w) / T(R(w)*c/w)) - 48.60`,
where the grid is the spectrum samples inside the bandpass range, `T` is
the trapezoidal rule over that grid, and `c = 2.99792458e18`; numerator
and denominator are integrated separately and then divided. -/
theorem apmag_AB_formula (ops : RealOps) (vega s : Spectrum) (band : Band) (mzero : ℚ)
    (hlen : s.wavelength.length = s.flux.length)
    (hc : npMin s.wavelength ≤ npMin band.wavelength ∧
      npMax band.wavelength ≤ npMax s.wavelength) :
    c = 2.99792458e18 ∧
    apmag ops vega s band "AB" mzero =
      .ok (-2.5 * ops.log10
          (trapz ((gridPairs s (npMin band.wavelength) (npMax band.wavelength)).map
              (fun q => q.2 * band.resp q.1 * q.1))
            ((gridPairs s (npMin band.wavelength) (npMax band.wavelength)).map Prod.fst) /
          trapz ((gridPairs s (npMin band.wavelength) (npMax band.wavelength)).map
              (fun q => band.resp q.1 * c / q.1))
            ((gridPairs s (npMin band.wavelength) (npMax band.wavelength)).map Prod.fst)) +
        (-48.60)) := by
  refine ⟨rfl, ?_⟩
  have hok := waverange_ok band.wavelength s.wavelength hc
  have hwr := sel_grid_fst s (npMin band.wavelength) (npMax band.wavelength) hlen
  have hfr := sel_grid_snd s (npMin band.wavelength) (npMax band.wavelength) hlen
  simp only [apmag, hok, hwr, hfr, if_true]
  rw [zipWith_map_same (fun fi wi => fi * band.resp wi * wi) Prod.snd Prod.fst
    (gridPairs s (npMin band.wavelength) (npMax band.wavelength))]
  rw [List.map_map]
  rfl

/-- Witness for C2 at a concrete input. -/
theorem apmag_AB_formula_witness :
    (sWit.wavelength.length = sWit.flux.length ∧
      npMin sWit.wavelength ≤ npMin bWit.wavelength ∧
      npMax bWit.wavelength ≤ npMax sWit.wavelength) ∧
    apmag ops0 sWit sWit bWit "AB" 0 =
      .ok (-2.5 * ops0.log10
          (trapz ((gridPairs sWit (npMin bWit.wavelength) (npMax bWit.wavelength)).map
              (fun q => q.2 * bWit.resp q.1 * q.1))
            ((gridPairs sWit (npMin bWit.wavelength) (npMax bWit.wavelength)).map Prod.fst) /
          trapz ((gridPairs sWit (npMin bWit.wavelength) (npMax bWit.wavelength)).map
              (fun q => bWit.resp q.1 * c / q.1))
            ((gridPairs sWit (npMin bWit.wavelength) (npMax bWit.wavelength)).map Prod.fst)) +
        (-48.60)) := by
  have hlen : sWit.wavelength.length = sWit.flux.length := rfl
  have hc : npMin sWit.wavelength ≤ npMin bWit.wavelength ∧
      npMax bWit.wavelength ≤ npMax sWit.wavelength :=
    ⟨le_refl (npMin [(5000 : ℚ)]), le_refl (npMax [(5000 : ℚ)])⟩
  exact ⟨⟨hlen, hc⟩, (apmag_AB_formula ops0 sWit sWit bWit 0 hlen hc).2⟩

/-- C3: apmag in the Vega system resolves the overlap containment twice,
once against the target spectrum and, independently, once against the
Vega reference spectrum, and returns
`-2.5*log10(T(f*R(w)*w)) + 2.5*log10(T(fv*R(wv)*wv)) + mzero`, each
trapezoidal integral taken over its own grid; if the reference overlap
fails it raises the overlap error even though the target overlap holds. -/
theorem apmag_Vega_formula (ops : RealOps) (vega s : Spectrum) (band : Band) (mzero : ℚ)
    (hlen : s.wavelength.length = s.flux.length)
    (hlenV : vega.wavelength.length = vega.flux.length)
    (hcS : npMin s.wavelength ≤ npMin band.wavelength ∧
      npMax band.wavelength ≤ npMax s.wavelength) :
    ((npMin vega.wavelength ≤ npMin band.wavelength ∧
        npMax band.wavelength ≤ npMax vega.wavelength) →
      apmag ops vega s band "Vega" mzero =
        .ok (-2.5 * ops.log10
            (trapz ((gridPairs s (npMin band.wavelength) (npMax band.wavelength)).map
                (fun q => q.2 * band.resp q.1 * q.1))
              ((gridPairs s (npMin band.wavelength) (npMax band.wavelength)).map Prod.fst)) +
          2.5 * ops.log10
            (trapz ((gridPairs vega (npMin band.wavelength) (npMax band.wavelength)).map
                (fun q => q.2 * band.resp q.1 * q.1))
              ((gridPairs vega (npMin band.wavelength) (npMax band.wavelength)).map
                Prod.fst)) +
          mzero)) ∧
    (¬(npMin vega.wavelength ≤ npMin band.wavelength ∧
        npMax band.wavelength ≤ npMax vega.wavelength) →
      apmag ops vega s band "Vega" mzero = .error overlapMsg) := by
  have hokS := waverange_ok band.wavelength s.wavelength hcS
  have hwr := sel_grid_fst s (npMin band.wavelength) (npMax band.wavelength) hlen
  have hfr := sel_grid_snd s (npMin band.wavelength) (npMax band.wavelength) hlen
  constructor
  · intro hcV
    have hokV := waverange_ok band.wavelength vega.wavelength hcV
    have hwrV := sel_grid_fst vega (npMin band.wavelength) (npMax band.wavelength) hlenV
    have hfrV := sel_grid_snd vega (npMin band.wavelength) (npMax band.wavelength) hlenV
    simp only [apmag, hokS, hokV, hwr, hfr, hwrV, hfrV, String.reduceEq, if_true, if_false]
    rw [zipWith_map_same (fun fi wi => fi * band.resp wi * wi) Prod.snd Prod.fst
      (gridPairs s (npMin band.wavelength) (npMax band.wavelength))]
    rw [zipWith_map_same (fun fi wi => fi * band.resp wi * wi) Prod.snd Prod.fst
      (gridPairs vega (npMin band.wavelength) (npMax band.wavelength))]
  · intro hcV
    have herrV : waverange band.wavelength vega.wavelength = .error overlapMsg :=
      (waverange_error_iff _ _).mpr ((not_contained_iff _ _).mpr hcV)
    simp only [apmag, hokS, herrV, String.reduceEq, if_true, if_false]

/-- Witness for C3 at a concrete input. -/
theorem apmag_Vega_formula_witness :
    (sWit.wavelength.length = sWit.flux.length ∧
      npMin sWit.wavelength ≤ npMin bWit.wavelength ∧
      npMax bWit.wavelength ≤ npMax sWit.wavelength) ∧
    apmag ops0 sWit sWit bWit "Vega" (3/100) =
      .ok (-2.5 * ops0.log10
          (trapz ((gridPairs sWit (npMin bWit.wavelength) (npMax bWit.wavelength)).map
              (fun q => q.2 * bWit.resp q.1 * q.1))
            ((gridPairs sWit (npMin bWit.wavelength) (npMax bWit.wavelength)).map Prod.fst)) +
        2.5 * ops0.log10
          (trapz ((gridPairs sWit (npMin bWit.wavelength) (npMax bWit.wavelength)).map
              (fun q => q.2 * bWit.resp q.1 * q.1))
            ((gridPairs sWit (npMin bWit.wavelength) (npMax bWit.wavelength)).map Prod.fst)) +
        3/100) := by
  have hlen : sWit.wavelength.length = sWit.flux.length := rfl
  have hc : npMin sWit.wavelength ≤ npMin bWit.wavelength ∧
      npMax bWit.wavelength ≤ npMax sWit.wavelength :=
    ⟨le_refl (npMin [(5000 : ℚ)]), le_refl (npMax [(5000 : ℚ)])⟩
  exact ⟨⟨hlen, hc⟩, (apmag_Vega_formula ops0 sWit sWit bWit (3/100) hlen hlen hc).1 hc⟩

/-- C4: for a spectrum and bandpass passing the overlap check and a law
name present in the extinction-law registry, extinction returns
`-2.5*log10(ratio)` with
`ratio = T(f*R(w)*w*10^(-0.4*law(w))) / T(f*R(w)*w)` over the overlap
grid; the spectrum flux appears in both the numerator and the
denominator. -/
theorem extinction_formula (ops : RealOps) (s : Spectrum) (band : Band)
    (law : String) (A Rv : ℚ) (ext : List ℚ)
    (hlen : s.wavelength.length = s.flux.length)
    (hc : npMin s.wavelength ≤ npMin band.wavelength ∧
      npMax band.wavelength ≤ npMax s.wavelength)
    (hlaw : law ∈ (extlaws ops A Rv).map Prod.fst)
    (hext : cardelli ops A Rv
      ((gridPairs s (npMin band.wavelength) (npMax band.wavelength)).map Prod.fst)
        = .ok ext) :
    extinction ops s band law A Rv =
      .ok (-2.5 * ops.log10
        (trapz (List.zipWith
            (fun q e => q.2 * band.resp q.1 * q.1 * ops.rpow 10 (-0.4 * e))
            (gridPairs s (npMin band.wavelength) (npMax band.wavelength)) ext)
          ((gridPairs s (npMin band.wavelength) (npMax band.wavelength)).map Prod.fst) /
        trapz ((gridPairs s (npMin band.wavelength) (npMax band.wavelength)).map
            (fun q => q.2 * band.resp q.1 * q.1))
          ((gridPairs s (npMin band.wavelength) (npMax band.wavelength)).map Prod.fst))) := by
  have hlaw2 : law = "cardelli" := by simpa [extlaws] using hlaw
  subst hlaw2
  have hok := waverange_ok band.wavelength s.wavelength hc
  have hwr := sel_grid_fst s (npMin band.wavelength) (npMax band.wavelength) hlen
  have hfr := sel_grid_snd s (npMin band.wavelength) (npMax band.wavelength) hlen
  simp only [extinction, hok, hwr, hfr, extlaws, List.lookup, beq_self_eq_true, hext]
  rw [zipWith_map_same (fun fi wi => fi * band.resp wi * wi) Prod.snd Prod.fst
    (gridPairs s (npMin band.wavelength) (npMax band.wavelength))]
  rw [List.zipWith_map_left
    (gridPairs s (npMin band.wavelength) (npMax band.wavelength)) ext
    (fun q => q.2 * band.resp q.1 * q.1)
    (fun p e => p * ops.rpow 10 (-0.4 * e))]

/-- Witness for C4 at a concrete input. -/
theorem extinction_formula_witness :
    (npMin sWit.wavelength ≤ npMin bWit.wavelength ∧
      npMax bWit.wavelength ≤ npMax sWit.wavelength) ∧
    ("cardelli" ∈ (extlaws ops0 1 (31/10)).map Prod.fst) ∧
    extinction ops0 sWit bWit "cardelli" 1 (31/10) =
      .ok (-2.5 * ops0.log10
        (trapz (List.zipWith
            (fun q e => q.2 * bWit.resp q.1 * q.1 * ops0.rpow 10 (-0.4 * e))
            (gridPairs sWit (npMin bWit.wavelength) (npMax bWit.wavelength))
            (((gridPairs sWit (npMin bWit.wavelength) (npMax bWit.wavelength)).map
                Prod.fst).map
              (fun w => 1 * (aCCM ops0 w + bCCM ops0 w / (31/10)))))
          ((gridPairs sWit (npMin bWit.wavelength) (npMax bWit.wavelength)).map Prod.fst) /
        trapz ((gridPairs sWit (npMin bWit.wavelength) (npMax bWit.wavelength)).map
            (fun q => q.2 * bWit.resp q.1 * q.1))
          ((gridPairs sWit (npMin bWit.wavelength) (npMax bWit.wavelength)).map Prod.fst))) := by
  have hlen : sWit.wavelength.length = sWit.flux.length := rfl
  have hc : npMin sWit.wavelength ≤ npMin bWit.wavelength ∧
      npMax bWit.wavelength ≤ npMax sWit.wavelength :=
    ⟨le_refl (npMin [(5000 : ℚ)]), le_refl (npMax [(5000 : ℚ)])⟩
  have hlaw : "cardelli" ∈ (extlaws ops0 1 (31/10)).map Prod.fst := by simp [extlaws]
  have hall : ∀ w ∈ (gridPairs sWit (npMin bWit.wavelength) (npMax bWit.wavelength)).map
      Prod.fst, 0.3 ≤ Xof w ∧ Xof w < 10 := by
    intro w hw
    have hmem := grid_fst_mem sWit (npMin bWit.wavelength) (npMax bWit.wavelength) w hw
    have hw5 : w = 5000 := by simpa [sWit] using hmem
    subst hw5
    norm_num [Xof]
  have hext := cardelli_all_ok ops0 1 (31/10)
    ((gridPairs sWit (npMin bWit.wavelength) (npMax bWit.wavelength)).map Prod.fst) hall
  exact ⟨hc, hlaw, extinction_formula ops0 sWit bWit "cardelli" 1 (31/10) _ hlen hc hlaw hext⟩

/-- C5: the Cardelli law raises a domain error exactly when some input
wavelength has `X = 1e4/w` outside `[0.3, 10)`, and on an in-domain
input returns exactly one value `A * (a + b/Rv)` per wavelength,
element-wise and in input order. -/
theorem cardelli_elementwise (ops : RealOps) (A Rv : ℚ) (ws : List ℚ) :
    ((∃ e, cardelli ops A Rv ws = .error e) ↔ ∃ w ∈ ws, Xof w < 0.3 ∨ 10 ≤ Xof w) ∧
    ((∀ w ∈ ws, 0.3 ≤ Xof w ∧ Xof w < 10) →
      cardelli ops A Rv ws = .ok (ws.map (fun w => A * (aCCM ops w + bCCM ops w / Rv)))) := by
  refine ⟨⟨?_, cardelli_some_bad ops A Rv ws⟩, cardelli_all_ok ops A Rv ws⟩
  rintro ⟨e, he⟩
  by_contra hno
  push_neg at hno
  rw [cardelli_all_ok ops A Rv ws hno] at he
  exact Except.noConfusion he

/-- Witness for C5 at a concrete input. -/
theorem cardelli_elementwise_witness :
    (∀ w ∈ [(5000 : ℚ)], 0.3 ≤ Xof w ∧ Xof w < 10) ∧
      cardelli ops0 1 (31/10) [5000] =
        .ok ([(5000 : ℚ)].map (fun w => 1 * (aCCM ops0 w + bCCM ops0 w / (31/10)))) := by
  have hall : ∀ w ∈ [(5000 : ℚ)], 0.3 ≤ Xof w ∧ Xof w < 10 := by
    intro w hw
    simp only [List.mem_singleton] at hw
    subst hw
    norm_num [Xof]
  exact ⟨hall, (cardelli_elementwise ops0 1 (31/10) [5000]).2 hall⟩

/-- Witness for C7 at a concrete input. -/
theorem interp1dModel_outside_zero_witness :
    ((4000 : ℚ) < npMin [5000] ∨ npMax [5000] < 4000) ∧
      interp1dModel (fun _ => 1) [5000] 4000 = 0 := by
  have hx : (4000 : ℚ) < npMin [5000] ∨ npMax [5000] < 4000 := by
    left
    show (4000 : ℚ) < 5000
    norm_num
  exact ⟨hx, interp1dModel_outside_zero (fun _ => 1) [5000] 4000 hx⟩

end Pysysp
